import Mathlib

/-!
Shallow embedding of the dcrdex basic market-maker core
(`client/mm/mm_basic.go`) and of the account signing operation
(`client/core/types.go`), with theorems checking the natural-language
specification against the code.

Machine integers (`uint64`) are modelled as `Nat`; `float64` arithmetic is
modelled as exact rational arithmetic over `ℚ`, with Go's `math.Round`
(round half away from zero, applied here only to non-negative values)
modelled by `roundQ` / `roundDiv`.  Fallible Go functions returning
`(T, error)` are modelled as `Except`-valued functions.
-/

set_option autoImplicit false

deriving instance DecidableEq for Except

namespace Dcrdex

/-- `calc.RateEncodingFactor` from `dex/calc`: the conversion factor between
the conventional rate and the message-rate format. -/
def RateEncodingFactor : Nat := 100000000

/-- Round-half-away-from-zero of the non-negative rational `n / d`, computed
on naturals: `roundDiv n d = round (n / d)`.  This models
`uint64(math.Round(float64(n) / float64(d)))` for non-negative inputs. -/
def roundDiv (n d : Nat) : Nat := (2 * n + d) / (2 * d)

/-- Round-half-away-from-zero of a non-negative rational, yielding a natural.
Models `uint64(math.Round(x))` for `x ≥ 0`. -/
def roundQ (q : ℚ) : Nat := (⌊q + 1/2⌋).toNat

/-- Modelled from the spec: the quantization helper `steppedRate` is called by
the sources but its body is not among the provided files.  Per the spec it
rounds a rate to the nearest integer multiple of `step`; per the source
comment in `basisPrice` (`steppedRate(0, x) => x, so we have to handle
this.`) a rate whose rounded step count is zero yields `step` itself, i.e.
the minimum returned value is `step`. -/
def steppedRate (r step : Nat) : Nat :=
  let steps := roundDiv r step
  if steps = 0 then step else steps * step

/-- Error values of the calculator and planner, standing in for the Go
`error` values produced in `mm_basic.go`. -/
inductive MMError where
  | noBasisPrice
  | oracleFiatMismatch
  | zeroBasisPrice
  | sellFeesUnavailable
  | buyFeesUnavailable
  deriving DecidableEq, Repr

/-- The sanity-check condition of `basisPrice`:
`math.Abs((oracle - fiat) / oracle) > 0.05`, in exact arithmetic:
`20 * |oracle - fiat| > oracle`. -/
def oracleFiatMismatch (oracleRate rateFromFiat : Nat) : Bool :=
  decide (oracleRate < 20 * ((oracleRate : Int) - (rateFromFiat : Int)).natAbs)

/-- `basicMMCalculatorImpl.basisPrice`, as a function of the oracle rate
(already in message-rate units), the fiat-derived rate and the current rate
step read at the start of the cycle. -/
def basisPrice (oracleRate rateFromFiat rateStep : Nat) : Except MMError Nat :=
  if rateFromFiat = 0 then
    if oracleRate = 0 then .error .noBasisPrice
    else .ok (steppedRate oracleRate rateStep)
  else if oracleRate = 0 then
    .ok (steppedRate rateFromFiat rateStep)
  else if oracleFiatMismatch oracleRate rateFromFiat then
    .error .oracleFiatMismatch
  else
    .ok (steppedRate oracleRate rateStep)

example : basisPrice 0 0 5 = .error .noBasisPrice := by decide
example : basisPrice 1000 0 7 = .ok 1001 := by decide
example : basisPrice 0 1000 10 = .ok 1000 := by decide
example : basisPrice 100 200 1 = .error .oracleFiatMismatch := by decide
example : basisPrice 100 99 1 = .ok 100 := by decide

/-- `FeeGapStats` from `mm_basic.go`: info about market and fee state. -/
structure FeeGapStats where
  basisPrice : Nat
  remoteGap : Nat
  feeGap : Nat
  roundTripFees : Nat
  deriving DecidableEq, Repr

/-- The basis price as a ratio (conventional rate):
`r := float64(basisPrice) / calc.RateEncodingFactor`. -/
def basisRatio (basisPrice : Nat) : ℚ := (basisPrice : ℚ) / (RateEncodingFactor : ℚ)

/-- The half-gap `g = f * r / (f + 2l)` of `feeGapStats`, in exact
arithmetic, where `f` is the round-trip fees in base units, `l` the lot size
and `r` the basis price as a ratio. -/
def halfGapQ (f l basisPrice : Nat) : ℚ :=
  (f : ℚ) * basisRatio basisPrice / ((f : ℚ) + 2 * (l : ℚ))

/-- `basicMMCalculatorImpl.feeGapStats`, as a function of the lot size and
the two one-lot fee fetches (`core.OrderFeesInUnits`, `none` when the fetch
fails) read during the call. -/
def feeGapStats (lotSize : Nat) (sellFeesInBaseUnits buyFeesInBaseUnits : Option Nat)
    (basisPrice : Nat) : Except MMError FeeGapStats :=
  if basisPrice = 0 then .error .zeroBasisPrice
  else
    match sellFeesInBaseUnits with
    | none => .error .sellFeesUnavailable
    | some sellFees =>
      match buyFeesInBaseUnits with
      | none => .error .buyFeesUnavailable
      | some buyFees =>
        let f := sellFees + buyFees
        let g := halfGapQ f lotSize basisPrice
        let halfGap := roundQ (g * (RateEncodingFactor : ℚ))
        .ok { basisPrice := basisPrice, remoteGap := 0,
              feeGap := halfGap * 2, roundTripFees := f }

example : feeGapStats 100 (some 50) (some 50) 3000000 =
    .ok { basisPrice := 3000000, remoteGap := 0, feeGap := 2000000, roundTripFees := 100 } := by
  have h : roundQ (halfGapQ (50 + 50) 100 3000000 * (RateEncodingFactor : ℚ)) = 1000000 := by
    norm_num [roundQ, halfGapQ, basisRatio, RateEncodingFactor]; rfl
  simp [feeGapStats, h]

/-- `GapStrategy` from `mm_basic.go`. -/
inductive GapStrategy where
  | multiplier
  | absolute
  | absolutePlus
  | percent
  | percentPlus
  deriving DecidableEq, Repr

/-- `needBreakEvenHalfSpread` from `mm_basic.go`. -/
def needBreakEvenHalfSpread (strat : GapStrategy) : Bool :=
  strat = GapStrategy.absolutePlus || strat = GapStrategy.percentPlus ||
    strat = GapStrategy.multiplier

/-- `OrderPlacement` from `mm_basic.go`: a ladder rung of the configuration. -/
structure OrderPlacement where
  lots : Nat
  gapFactor : ℚ
  deriving DecidableEq, Repr

/-- `TradePlacement`: the final instruction for one order slot. -/
structure TradePlacement where
  rate : Nat
  lots : Nat
  deriving DecidableEq, Repr

/-- The raw offset of `orderPrice` before the `-plus` fee addition: the
first `switch` on the gap strategy ("Apply the base strategy."). -/
def orderPriceBaseAdj (strat : GapStrategy) (msgRateF : ℚ → Nat)
    (basisPrice feeAdj : Nat) (gapFactor : ℚ) : Nat :=
  match strat with
  | .multiplier => roundQ ((feeAdj : ℚ) * gapFactor)
  | .percent => roundQ (gapFactor * (basisPrice : ℚ))
  | .percentPlus => roundQ (gapFactor * (basisPrice : ℚ))
  | .absolute => msgRateF gapFactor
  | .absolutePlus => msgRateF gapFactor

/-- The second `switch` of `orderPrice`: "Add the break-even to the -plus
strategies". -/
def orderPricePlusAdj (strat : GapStrategy) (adj feeAdj : Nat) : Nat :=
  match strat with
  | .absolutePlus => adj + feeAdj
  | .percentPlus => adj + feeAdj
  | .multiplier => adj
  | .absolute => adj
  | .percent => adj

/-- `basicMarketMaker.orderPrice`.  The gap strategy and the current rate
step come from the receiver; `msgRateF` stands for the market's `msgRate`
conversion of a conventional rate to message-rate units (its body lives
outside the provided sources). -/
def orderPrice (strat : GapStrategy) (msgRateF : ℚ → Nat) (rateStep : Nat)
    (basisPrice feeAdj : Nat) (sell : Bool) (gapFactor : ℚ) : Nat :=
  let adj0 := orderPriceBaseAdj strat msgRateF basisPrice feeAdj gapFactor
  let adj1 := orderPricePlusAdj strat adj0 feeAdj
  let adj := steppedRate adj1 rateStep
  if sell then basisPrice + adj
  else if basisPrice < adj then 0
  else basisPrice - adj

example : orderPrice .percent (fun _ => 0) 100 1000000 0 true (1/100) = 1010000 := by
  norm_num [orderPrice, orderPriceBaseAdj, orderPricePlusAdj, steppedRate, roundDiv,
    roundQ]
  decide
example : orderPrice .percent (fun _ => 0) 100 1000000 0 false (1/100) = 990000 := by
  norm_num [orderPrice, orderPriceBaseAdj, orderPricePlusAdj, steppedRate, roundDiv,
    roundQ]
  decide

/-- `basicMarketMaker.ordersToPlace`, as a function of the calculator inputs
read during the cycle (oracle rate, fiat rate, rate step, lot size, the two
fee fetches) and the configured placement ladders. -/
def ordersToPlace (strat : GapStrategy) (msgRateF : ℚ → Nat)
    (oracleRate rateFromFiat rateStep lotSize : Nat)
    (sellFees buyFees : Option Nat)
    (buyPlacements sellPlacements : List OrderPlacement) :
    Except MMError (List TradePlacement × List TradePlacement) :=
  match basisPrice oracleRate rateFromFiat rateStep with
  | .error e => .error e
  | .ok bp =>
    match feeGapStats lotSize sellFees buyFees bp with
    | .error e => .error e
    | .ok feeGap =>
      let feeAdj := if needBreakEvenHalfSpread strat then feeGap.feeGap / 2 else 0
      let orders := fun (orderPlacements : List OrderPlacement) (sell : Bool) =>
        orderPlacements.map fun p =>
          let rate := orderPrice strat msgRateF rateStep bp feeAdj sell p.gapFactor
          let lots := if rate = 0 then 0 else p.lots
          ({ rate := rate, lots := lots } : TradePlacement)
      .ok (orders buyPlacements false, orders sellPlacements true)

example : ordersToPlace .percent (fun _ => 0) 500000 0 1 1000 (some 100) (some 100)
    [{ lots := 1, gapFactor := 1/100 }] [] =
    .ok ([{ rate := 495000, lots := 1 }], []) := by
  norm_num [ordersToPlace, basisPrice, feeGapStats, orderPrice, orderPriceBaseAdj,
    orderPricePlusAdj, needBreakEvenHalfSpread, steppedRate, roundDiv, roundQ,
    halfGapQ, basisRatio, RateEncodingFactor, oracleFiatMismatch]
  decide

/-- The epoch report assembled at the end of `rebalance`.  The two
`OrderReport`s returned by `multiTrade` are modelled by the placement lists
handed to `multiTrade` (`none` when no placement was attempted); the
pre-order problem records `determinePlacementsErr`. -/
structure EpochReport where
  buysReport : Option (List TradePlacement)
  sellsReport : Option (List TradePlacement)
  epochNum : Nat
  preOrderProblem : Option MMError
  deriving DecidableEq, Repr

/-- Observable actions of one `rebalance` invocation, in program order:
the bot-health check, `tryCancelOrders`, the `ordersToPlace` computation,
each `multiTrade` submission, and the `updateEpochReport` publication. -/
inductive REvent where
  | checkHealth
  | cancelOrders
  | planOrders
  | submitTrades (sell : Bool) (placements : List TradePlacement)
  | publishReport (report : EpochReport)
  deriving DecidableEq, Repr

/-- `basicMarketMaker.rebalance`.  The atomic `rebalanceRunning` flag is the
explicit `rebalanceRunning` argument; the first component of the result is
the flag's value after the call returns (the CAS acquires it and the
deferred `Store(false)` releases it), the second the trace of observable
actions.  `healthy` is the result of the external `checkBotHealth`
collaborator. -/
def rebalance (rebalanceRunning healthy : Bool) (strat : GapStrategy)
    (msgRateF : ℚ → Nat) (oracleRate rateFromFiat rateStep lotSize : Nat)
    (sellFees buyFees : Option Nat)
    (buyPlacements sellPlacements : List OrderPlacement)
    (newEpoch : Nat) : Bool × List REvent :=
  if rebalanceRunning then (rebalanceRunning, [])
  else
    let events :=
      if !healthy then [REvent.checkHealth, REvent.cancelOrders]
      else
        match ordersToPlace strat msgRateF oracleRate rateFromFiat rateStep lotSize
            sellFees buyFees buyPlacements sellPlacements with
        | .error e =>
          [REvent.checkHealth, REvent.planOrders, REvent.cancelOrders,
           REvent.publishReport
             { buysReport := none, sellsReport := none,
               epochNum := newEpoch, preOrderProblem := some e }]
        | .ok (buyOrders, sellOrders) =>
          [REvent.checkHealth, REvent.planOrders,
           REvent.submitTrades false buyOrders, REvent.submitTrades true sellOrders,
           REvent.publishReport
             { buysReport := some buyOrders, sellsReport := some sellOrders,
               epochNum := newEpoch, preOrderProblem := none }]
    (false, events)

/-- Whether a rebalance trace contains an epoch-report publication. -/
def publishesReport (events : List REvent) : Bool :=
  events.any fun e =>
    match e with
    | .publishReport _ => true
    | _ => false

example : publishesReport (rebalance false false .percent (fun _ => 0)
    0 0 1 1 none none [] [] 7).2 = false := by decide
example : publishesReport (rebalance false true .percent (fun _ => 0)
    0 0 1 1 none none [] [] 7).2 = true := by decide

/-- The initial `qtyCounter` of `updateLotSize`: the total quantity of the
placements at lot size `lotSize`. -/
def totalQty (lotSize : Nat) (placements : List OrderPlacement) : Nat :=
  placements.foldl (fun acc p => acc + p.lots * lotSize) 0

/-- The second loop of the package-level `updateLotSize` function, carrying
the running `qtyCounter`. -/
def updateLotSizeLoop (originalLotSize newLotSize : Nat) :
    List OrderPlacement → Nat → List OrderPlacement
  | [], _ => []
  | p :: ps, qtyCounter =>
    let lots0 := max (roundDiv (p.lots * originalLotSize) newLotSize) 1
    let maxLots := qtyCounter / newLotSize
    let lots := min lots0 maxLots
    if lots = 0 then updateLotSizeLoop originalLotSize newLotSize ps qtyCounter
    else
      { lots := lots, gapFactor := p.gapFactor } ::
        updateLotSizeLoop originalLotSize newLotSize ps (qtyCounter - lots * newLotSize)

/-- The package-level `updateLotSize` from `mm_basic.go`: rescale the lot
counts of a placement list after a lot-size change, without exceeding the
total quantity placed under the original lot size. -/
def updateLotSize (placements : List OrderPlacement) (originalLotSize newLotSize : Nat) :
    List OrderPlacement :=
  updateLotSizeLoop originalLotSize newLotSize placements (totalQty originalLotSize placements)

example : (updateLotSize [{ lots := 1, gapFactor := 1/2 }, { lots := 10, gapFactor := 1/4 }]
    10 30).map OrderPlacement.lots = [1, 2] := by decide
example : (updateLotSize [{ lots := 1, gapFactor := 1/2 }] 10 100).map OrderPlacement.lots
    = [] := by decide

/-- `BasicMarketMakingConfig`, restricted to the fields the modelled
operations read. -/
structure BasicMarketMakingConfig where
  gapStrategy : GapStrategy
  sellPlacements : List OrderPlacement
  buyPlacements : List OrderPlacement
  driftTolerance : ℚ

/-- The `BasicMarketMakingConfig.updateLotSize` method: rescale both sides. -/
def BasicMarketMakingConfig.updateLotSize (c : BasicMarketMakingConfig)
    (originalLotSize newLotSize : Nat) : BasicMarketMakingConfig :=
  { c with
    sellPlacements := Dcrdex.updateLotSize c.sellPlacements originalLotSize newLotSize
    buyPlacements := Dcrdex.updateLotSize c.buyPlacements originalLotSize newLotSize }

/-- The key-group state of `dexAccount` (`client/core/types.go`), the fields
guarded by `keyMtx`.  `K` is the abstract type of a decrypted private key;
a resident key is modelled by `privKey = some k`. -/
structure DexAccount (K : Type) where
  viewOnly : Bool
  encKey : List Nat
  privKey : Option K

/-- `dexAccount.lock`: clear the account private key. -/
def DexAccount.lock {K : Type} (a : DexAccount K) : DexAccount K :=
  { a with privKey := none }

/-- `dexAccount.locked`: true iff no private key is resident. -/
def DexAccount.locked {K : Type} (a : DexAccount K) : Bool :=
  a.privKey.isNone

/-- `dexAccount.sign`: sign the message with the account private key, or
fail with the "account locked" error when no key is resident.  `signMsg`
stands for the external `signMsg` detached-signature primitive. -/
def DexAccount.sign {K : Type} (signMsg : K → List Nat → List Nat)
    (a : DexAccount K) (msg : List Nat) : Except String (List Nat) :=
  match a.privKey with
  | none => .error "account locked"
  | some k => .ok (signMsg k msg)

example : (DexAccount.sign (fun k m => k :: m)
    { viewOnly := false, encKey := [1], privKey := some (5 : Nat) } [2, 3]) = .ok [5, 2, 3] := by
  decide
example : (DexAccount.sign (fun k m => k :: m)
    ({ viewOnly := false, encKey := [1], privKey := some (5 : Nat) } : DexAccount Nat).lock
    [2, 3]) = .error "account locked" := by decide

/-! ### Helper lemmas -/

lemma roundQ_natCast_div (a b : Nat) : roundQ ((a : ℚ) / (b : ℚ)) = roundDiv a b := by
  rcases Nat.eq_zero_or_pos b with hb | hb
  · subst hb
    simp [roundQ, roundDiv]
    norm_num
  · have hb' : (0 : ℚ) < (b : ℚ) := by exact_mod_cast hb
    have key : (a : ℚ) / (b : ℚ) + 1/2 = ((2 * a + b : Nat) : ℚ) / ((2 * b : Nat) : ℚ) := by
      push_cast
      field_simp
      ring
    rw [roundQ, key, Int.floor_toNat, Nat.floor_div_nat, Nat.floor_natCast]
    rfl

lemma roundQ_natCast (a : Nat) : roundQ ((a : ℚ)) = a := by
  have h := roundQ_natCast_div a 1
  simp [roundDiv] at h
  rw [h]
  omega

lemma oracleFiatMismatch_iff (o f : Nat) (ho : 0 < o) :
    oracleFiatMismatch o f = true ↔ 1/20 < |(o : ℚ) - (f : ℚ)| / (o : ℚ) := by
  have ho' : (0 : ℚ) < (o : ℚ) := by exact_mod_cast ho
  rw [oracleFiatMismatch, decide_eq_true_iff, lt_div_iff ho']
  have habs : ((((o : Int) - (f : Int)).natAbs : Nat) : ℚ) = |(o : ℚ) - (f : ℚ)| := by
    rw [Int.cast_natAbs]
    push_cast
    ring_nf
  rw [← habs]
  constructor
  · intro h
    have h' : ((o : ℚ)) < ((20 * ((o : Int) - (f : Int)).natAbs : Nat) : ℚ) := by
      exact_mod_cast h
    push_cast at h'
    linarith
  · intro h
    have h' : ((o : ℚ)) < ((20 * ((o : Int) - (f : Int)).natAbs : Nat) : ℚ) := by
      push_cast
      linarith
    exact_mod_cast h'

/-! ### C1 -/

/-- C1: for every oracle rate and fiat rate read at the start of a cycle,
`basisPrice` fails with `NoBasisPrice` when both are 0, returns the
step-quantized oracle rate when only the fiat rate is 0, returns the
step-quantized fiat rate when only the oracle rate is 0, fails with
`OracleFiatMismatch` when both are nonzero and the relative mismatch
`|oracle - fiat| / oracle` exceeds 5%, and otherwise returns the
step-quantized oracle rate (never the fiat rate, never an average). -/
theorem basisPrice_cases (o f s : Nat) :
    (o = 0 → f = 0 → basisPrice o f s = .error .noBasisPrice) ∧
    (f = 0 → o ≠ 0 → basisPrice o f s = .ok (steppedRate o s)) ∧
    (f ≠ 0 → o = 0 → basisPrice o f s = .ok (steppedRate f s)) ∧
    (o ≠ 0 → f ≠ 0 → 1/20 < |(o : ℚ) - (f : ℚ)| / (o : ℚ) →
      basisPrice o f s = .error .oracleFiatMismatch) ∧
    (o ≠ 0 → f ≠ 0 → |(o : ℚ) - (f : ℚ)| / (o : ℚ) ≤ 1/20 →
      basisPrice o f s = .ok (steppedRate o s)) := by
  refine ⟨?_, ?_, ?_, ?_, ?_⟩
  · intro ho hf
    simp [basisPrice, ho, hf]
  · intro hf ho
    simp [basisPrice, ho, hf]
  · intro hf ho
    simp [basisPrice, ho, hf]
  · intro ho hf hgt
    have hm : oracleFiatMismatch o f = true :=
      (oracleFiatMismatch_iff o f (Nat.pos_of_ne_zero ho)).mpr hgt
    simp [basisPrice, ho, hf, hm]
  · intro ho hf hle
    have hm : oracleFiatMismatch o f = false := by
      rw [Bool.eq_false_iff]
      intro hc
      exact absurd ((oracleFiatMismatch_iff o f (Nat.pos_of_ne_zero ho)).mp hc)
        (not_lt.mpr hle)
    simp [basisPrice, ho, hf, hm]

/-- Witness for C1: the mismatch case at oracle rate 100, fiat rate 200,
rate step 5, where the relative mismatch is 100%. -/
theorem basisPrice_cases_witness :
    basisPrice 100 200 5 = .error .oracleFiatMismatch :=
  (basisPrice_cases 100 200 5).2.2.2.1 (by norm_num) (by norm_num) (by norm_num)

lemma steppedRate_eq_of_dvd (x s : Nat) (hx : x ≠ 0) (hdvd : s ∣ x) : steppedRate x s = x := by
  obtain ⟨k, hk⟩ := hdvd
  have hs : 0 < s := by
    rcases Nat.eq_zero_or_pos s with h | h
    · subst h
      simp at hk
      exact absurd hk hx
    · exact h
  have hk0 : k ≠ 0 := by
    rintro rfl
    simp at hk
    exact hx hk
  have hq : roundDiv x s = k := by
    unfold roundDiv
    rw [hk, show 2*(s*k) + s = s*(2*k+1) from by ring, show 2*s = s*2 from by ring,
      Nat.mul_div_mul_left _ _ hs]
    omega
  have hstep : steppedRate x s = k * s := by simp [steppedRate, hq, hk0]
  rw [hstep, hk, Nat.mul_comm]

/-! ### C7 -/

/-- C7 (amended): for every rate `x` and positive step, `steppedRate x step`
is a nonzero multiple of the step, and it is the multiple of the step
nearest to `x` among the nonzero multiples; for a zero input (and, in
general, whenever the rounded step count is zero) it returns `step` itself,
not 0 — the minimum returned value is `step`. -/
theorem steppedRate_nearest (x s : Nat) (hs : 0 < s) :
    steppedRate 0 s = s ∧
    (∃ q, 1 ≤ q ∧ steppedRate x s = q * s) ∧
    (∀ k, 1 ≤ k →
      (((steppedRate x s : Nat) : Int) - (x : Int)).natAbs ≤
        (((k * s : Nat) : Int) - (x : Int)).natAbs) := by
  have hd : steppedRate x s = if roundDiv x s = 0 then s else roundDiv x s * s := rfl
  refine ⟨?_, ?_, ?_⟩
  · have h0 : roundDiv 0 s = 0 := by
      unfold roundDiv
      rw [Nat.div_eq_of_lt (by omega)]
    simp [steppedRate, h0]
  · by_cases h0 : roundDiv x s = 0
    · exact ⟨1, le_refl 1, by simp [steppedRate, h0]⟩
    · exact ⟨roundDiv x s, Nat.one_le_iff_ne_zero.mpr h0, by simp [steppedRate, h0]⟩
  · intro k hk
    set q := roundDiv x s with hqdef
    have hqe : (2*x + s) / (2*s) = q := rfl
    have hdm := Nat.div_add_mod (2*x + s) (2*s)
    rw [hqe] at hdm
    have hmod : (2*x + s) % (2*s) < 2*s := Nat.mod_lt _ (by omega)
    have hdm' : 2*(s*q) + (2*x + s) % (2*s) = 2*x + s := by
      rw [show 2*(s*q) = 2*s*q from by ring]
      exact hdm
    by_cases hq0 : q = 0
    · rw [hd, if_pos hq0]
      have hA0 : s * q = 0 := by rw [hq0, Nat.mul_zero]
      rw [hA0] at hdm'
      have hB : s ≤ k * s := Nat.le_mul_of_pos_left s (by omega)
      set B := k * s with hBdef
      omega
    · rw [hd, if_neg hq0]
      have hqs : q * s = s * q := Nat.mul_comm q s
      rw [hqs]
      rcases lt_trichotomy k q with hlt | heq | hgt
      · have h1 : (k+1) * s ≤ q * s := Nat.mul_le_mul_right s (by omega)
        have h2 : k*s + s ≤ s*q := by
          calc k*s + s = (k+1)*s := by ring
            _ ≤ q*s := h1
            _ = s*q := Nat.mul_comm q s
        set A := s * q with hAdef
        set B := k * s with hBdef
        omega
      · subst heq
        rw [hqs]
      · have h1 : (q+1) * s ≤ k * s := Nat.mul_le_mul_right s (by omega)
        have h2 : s*q + s ≤ k*s := by
          calc s*q + s = (q+1)*s := by ring
            _ ≤ k*s := h1
        set A := s * q with hAdef
        set B := k * s with hBdef
        omega

/-- Witness for C7's amended theorem at `x = 7`, `s = 5`, `k = 2`. -/
theorem steppedRate_nearest_witness :
    steppedRate 0 5 = 5 ∧
    (((steppedRate 7 5 : Nat) : Int) - (7 : Int)).natAbs ≤
      (((2 * 5 : Nat) : Int) - (7 : Int)).natAbs := by
  have h := steppedRate_nearest 7 5 (by decide)
  exact ⟨h.1, h.2.2 2 (by decide)⟩

/-- Counterexample for C7 as stated: `steppedRate 0 5` is `5`, not `0` —
a zero input does not yield a zero output. -/
theorem steppedRate_zero_counterexample : steppedRate 0 5 = 5 ∧ steppedRate 0 5 ≠ 0 := by
  decide

/-! ### C2 -/

lemma halfGap_roundDiv (f l bp : Nat) :
    roundQ (halfGapQ f l bp * (RateEncodingFactor : ℚ)) = roundDiv (f * bp) (f + 2 * l) := by
  have key : halfGapQ f l bp * (RateEncodingFactor : ℚ)
      = ((f * bp : Nat) : ℚ) / ((f + 2 * l : Nat) : ℚ) := by
    rcases Nat.eq_zero_or_pos (f + 2*l) with h | h
    · have hf : f = 0 := by omega
      have hl : l = 0 := by omega
      subst hf
      subst hl
      simp [halfGapQ, basisRatio]
    · have hd : ((f + 2 * l : Nat) : ℚ) ≠ 0 := by
        have := Nat.pos_iff_ne_zero.mp h
        exact_mod_cast this
      have hREF : ((RateEncodingFactor : Nat) : ℚ) ≠ 0 := by
        norm_num [RateEncodingFactor]
      unfold halfGapQ basisRatio
      push_cast at hd ⊢
      field_simp
      ring
  rw [key, roundQ_natCast_div]

/-- Following the spec's words, for comparison with the implementation:
"quantize `2g` to the rate step and report as `FeeGap`", with the spec's
quantization rule "round to nearest multiple of the rate step; a zero input
yields a zero output". -/
def specQuantizedFeeGap (f l bp rateStep : Nat) : Nat :=
  roundQ (2 * halfGapQ f l bp * (RateEncodingFactor : ℚ) / (rateStep : ℚ)) * rateStep

/-- C2 (amended): `feeGapStats` fails with `ZeroBasisPrice` whenever the
basis price is 0; for every positive basis price, positive lot size `l` and
successfully fetched one-lot sell and buy fees summing to `f`, it returns a
`FeeGapStats` whose `RoundTripFees` equals `f` and whose `FeeGap` equals
`2·round(g·RateEncodingFactor)` where `g = f·r / (f + 2·l)` and `r` is the
basis price as a ratio — i.e. twice the half-gap rounded to whole
message-rate units (the rate step is not consulted); the exact half-gap `g`
satisfies the round-trip equation `(r + g)·l = (l + f)·(r − g)`, so selling
one lot at `r + g` and buying one lot at `r − g` nets one lot of base asset
plus the round-trip fees. -/
theorem feeGapStats_correct (l sf bf bp : Nat) (sfe bfe : Option Nat) :
    (feeGapStats l sfe bfe 0 = .error .zeroBasisPrice) ∧
    (0 < bp → feeGapStats l (some sf) (some bf) bp =
      .ok { basisPrice := bp, remoteGap := 0,
            feeGap := roundDiv ((sf + bf) * bp) ((sf + bf) + 2 * l) * 2,
            roundTripFees := sf + bf }) ∧
    (0 < l →
      (basisRatio bp + halfGapQ (sf + bf) l bp) * (l : ℚ) =
        ((l : ℚ) + ((sf + bf : Nat) : ℚ)) * (basisRatio bp - halfGapQ (sf + bf) l bp)) := by
  refine ⟨?_, ?_, ?_⟩
  · simp [feeGapStats]
  · intro hbp
    have hb0 : ¬ bp = 0 := by omega
    simp only [feeGapStats, if_neg hb0, halfGap_roundDiv]
  · intro hl
    have hl' : (0 : ℚ) < (l : ℚ) := by exact_mod_cast hl
    have hd : ((sf : ℚ) + (bf : ℚ)) + 2 * (l : ℚ) ≠ 0 := by positivity
    have hREF : ((RateEncodingFactor : Nat) : ℚ) ≠ 0 := by
      norm_num [RateEncodingFactor]
    unfold halfGapQ basisRatio
    push_cast
    push_cast at hd
    field_simp
    ring

/-- Witness for C2's amended theorem: lot size 100, fees 50 + 50, basis
price 3000000. -/
theorem feeGapStats_correct_witness :
    feeGapStats 100 none (some 7) 0 = .error .zeroBasisPrice ∧
    feeGapStats 100 (some 50) (some 50) 3000000 =
      .ok { basisPrice := 3000000, remoteGap := 0,
            feeGap := roundDiv ((50 + 50) * 3000000) ((50 + 50) + 2 * 100) * 2,
            roundTripFees := 50 + 50 } ∧
    (basisRatio 3000000 + halfGapQ (50 + 50) 100 3000000) * ((100 : Nat) : ℚ) =
      (((100 : Nat) : ℚ) + ((50 + 50 : Nat) : ℚ)) *
        (basisRatio 3000000 - halfGapQ (50 + 50) 100 3000000) := by
  have h := feeGapStats_correct 100 50 50 3000000 none (some 7)
  exact ⟨h.1, h.2.1 (by decide), h.2.2 (by decide)⟩

/-- Counterexample for C2 as stated: at lot size 100, fees 50 + 50, basis
price 3000000 and rate step 3, the implementation reports `FeeGap` 2000000,
while `2g` quantized to the rate step would be 2000001. -/
theorem feeGapStats_stepQuantization_counterexample :
    feeGapStats 100 (some 50) (some 50) 3000000 =
      .ok { basisPrice := 3000000, remoteGap := 0, feeGap := 2000000,
            roundTripFees := 100 } ∧
    specQuantizedFeeGap 100 100 3000000 3 = 2000001 ∧
    (2000000 : Nat) ≠ 2000001 := by
  refine ⟨?_, ?_, by decide⟩
  · have h : roundQ (halfGapQ (50 + 50) 100 3000000 * (RateEncodingFactor : ℚ)) = 1000000 := by
      norm_num [roundQ, halfGapQ, basisRatio, RateEncodingFactor]
      rfl
    simp [feeGapStats, h]
  · norm_num [specQuantizedFeeGap, roundQ, halfGapQ, basisRatio, RateEncodingFactor]
    rfl

/-! ### C3 -/

/-- C3: for every basis price, fee adjustment, side and gap factor,
`orderPrice` computes the offset `adj` per the configured strategy
(multiplier: `feeAdj·gapFactor`; percent and percent-plus:
`gapFactor·basisPrice`; absolute and absolute-plus: the gap factor
converted to message-rate units), adds `feeAdj` for the `-plus` strategies,
quantizes `adj` to the rate step, and returns `basisPrice + adj` on the
sell side and `basisPrice - adj` on the buy side, clamped to 0 when
`adj > basisPrice`; in particular, for the percent strategy with gap factor
`0.01`, basis price `1000000` and any rate step dividing `10000`, the
offset is `10000`, the sell rate `1010000` and the buy rate `990000`. -/
theorem orderPrice_correct (strat : GapStrategy) (mR : ℚ → Nat) (s bp fa : Nat) (gf : ℚ) :
    (∀ sell : Bool, orderPrice strat mR s bp fa sell gf =
      (let adjBase : Nat :=
        match strat with
        | .multiplier => roundQ ((fa : ℚ) * gf)
        | .percent => roundQ (gf * (bp : ℚ))
        | .percentPlus => roundQ (gf * (bp : ℚ))
        | .absolute => mR gf
        | .absolutePlus => mR gf
      let adj : Nat := steppedRate
        (if strat = .absolutePlus ∨ strat = .percentPlus then adjBase + fa else adjBase) s
      if sell then bp + adj else if adj > bp then 0 else bp - adj)) ∧
    (∀ s2 fa2 : Nat, s2 ∣ 10000 →
      steppedRate (roundQ ((1/100 : ℚ) * ((1000000 : Nat) : ℚ))) s2 = 10000 ∧
      orderPrice .percent mR s2 1000000 fa2 true (1/100) = 1010000 ∧
      orderPrice .percent mR s2 1000000 fa2 false (1/100) = 990000) := by
  constructor
  · intro sell
    cases strat <;> rfl
  · intro s2 fa2 hdvd
    have h10 : roundQ ((1/100 : ℚ) * ((1000000 : Nat) : ℚ)) = 10000 := by
      norm_num [roundQ]
      rfl
    have hstep : steppedRate 10000 s2 = 10000 :=
      steppedRate_eq_of_dvd 10000 s2 (by decide) hdvd
    have e1 : orderPrice .percent mR s2 1000000 fa2 true (1/100)
        = 1000000 + steppedRate (roundQ ((1/100 : ℚ) * ((1000000 : Nat) : ℚ))) s2 := rfl
    have e2 : orderPrice .percent mR s2 1000000 fa2 false (1/100)
        = if 1000000 < steppedRate (roundQ ((1/100 : ℚ) * ((1000000 : Nat) : ℚ))) s2 then 0
          else 1000000 - steppedRate (roundQ ((1/100 : ℚ) * ((1000000 : Nat) : ℚ))) s2 := rfl
    refine ⟨by rw [h10, hstep], ?_, ?_⟩
    · rw [e1, h10, hstep]
    · rw [e2, h10, hstep]
      decide

/-- Witness for C3: the percent scenario at rate step 500 (which divides
10000) and an arbitrary fee adjustment 123. -/
theorem orderPrice_correct_witness :
    orderPrice .percent (fun _ => 3) 500 1000000 123 true (1/100) = 1010000 ∧
    orderPrice .percent (fun _ => 3) 500 1000000 123 false (1/100) = 990000 := by
  have h := (orderPrice_correct .percent (fun _ => 3) 7 42 99 (1/100)).2 500 123 (by decide)
  exact ⟨h.2.1, h.2.2⟩

/-! ### C4 -/

/-- C4: given a successful basis-price and fee-gap computation,
`ordersToPlace` returns exactly one `TradePlacement` per configured rung on
each side, in configured order; the fee adjustment is half the fee gap
exactly when the strategy is absolute-plus, percent-plus or multiplier
(otherwise 0); each output has the `orderPrice` rate and the rung's
configured lots, except that a rung whose computed rate is 0 keeps its
position with 0 lots.  In particular, with one buy placement
`{Lots: 1, GapFactor: 0.01}`, the percent strategy, a computed basis price
of 500000 and rate step 1, the buy output is `{Rate: 495000, Lots: 1}`. -/
theorem ordersToPlace_correct (strat : GapStrategy) (mR : ℚ → Nat)
    (o f s l : Nat) (sfe bfe : Option Nat) (buys sells : List OrderPlacement)
    (bp : Nat) (fg : FeeGapStats)
    (hbp : basisPrice o f s = .ok bp)
    (hfg : feeGapStats l sfe bfe bp = .ok fg) :
    (needBreakEvenHalfSpread strat = true ↔
      (strat = .absolutePlus ∨ strat = .percentPlus ∨ strat = .multiplier)) ∧
    (ordersToPlace strat mR o f s l sfe bfe buys sells =
      .ok (buys.map (fun p =>
             { rate := orderPrice strat mR s bp
                 (if needBreakEvenHalfSpread strat then fg.feeGap / 2 else 0)
                 false p.gapFactor,
               lots := if orderPrice strat mR s bp
                   (if needBreakEvenHalfSpread strat then fg.feeGap / 2 else 0)
                   false p.gapFactor = 0 then 0 else p.lots }),
           sells.map (fun p =>
             { rate := orderPrice strat mR s bp
                 (if needBreakEvenHalfSpread strat then fg.feeGap / 2 else 0)
                 true p.gapFactor,
               lots := if orderPrice strat mR s bp
                   (if needBreakEvenHalfSpread strat then fg.feeGap / 2 else 0)
                   true p.gapFactor = 0 then 0 else p.lots }))) ∧
    (∀ mR2 : ℚ → Nat, ordersToPlace .percent mR2 500000 0 1 1000 (some 100) (some 100)
        [{ lots := 1, gapFactor := 1/100 }] [] =
      .ok ([{ rate := 495000, lots := 1 }], [])) := by
  refine ⟨?_, ?_, ?_⟩
  · cases strat <;> simp [needBreakEvenHalfSpread]
  · simp only [ordersToPlace, hbp, hfg]
  · intro mR2
    norm_num [ordersToPlace, basisPrice, feeGapStats, orderPrice, orderPriceBaseAdj,
      orderPricePlusAdj, needBreakEvenHalfSpread, steppedRate, roundDiv, roundQ,
      halfGapQ, basisRatio, RateEncodingFactor, oracleFiatMismatch]
    decide

/-- Witness for C4: the scenario inputs, with the basis price and fee-gap
hypotheses discharged concretely. -/
theorem ordersToPlace_correct_witness :
    ordersToPlace .percent (fun _ => 0) 500000 0 1 1000 (some 100) (some 100)
      [{ lots := 1, gapFactor := 1/100 }] [] =
    .ok ([{ rate := 495000, lots := 1 }], []) := by
  have hbp : basisPrice 500000 0 1 = .ok 500000 := by decide
  have hfg : feeGapStats 1000 (some 100) (some 100) 500000 =
      .ok { basisPrice := 500000, remoteGap := 0, feeGap := 90910, roundTripFees := 200 } := by
    have h : roundQ (halfGapQ (100 + 100) 1000 500000 * (RateEncodingFactor : ℚ)) = 45455 := by
      norm_num [roundQ, halfGapQ, basisRatio, RateEncodingFactor]
      rfl
    simp [feeGapStats, h]
  exact (ordersToPlace_correct .percent (fun _ => 0) 500000 0 1 1000 (some 100) (some 100)
    [{ lots := 1, gapFactor := 1/100 }] [] 500000
    { basisPrice := 500000, remoteGap := 0, feeGap := 90910, roundTripFees := 200 }
    hbp hfg).2.2 (fun _ => 0)

/-! ### C5 -/

/-- C5: a `rebalance` call while the atomic running flag is already set is
a silent no-op — it returns immediately with an empty action trace (no
health check, no planning, no cancellation, no trade submission, no report
publication) and does not queue the trigger; a call that does acquire the
flag via the compare-and-swap always leaves it released on completion,
success or failure, via the deferred release. -/
theorem rebalance_singleflight (healthy : Bool) (strat : GapStrategy) (mR : ℚ → Nat)
    (o f s l : Nat) (sfe bfe : Option Nat) (buys sells : List OrderPlacement)
    (epoch : Nat) :
    rebalance true healthy strat mR o f s l sfe bfe buys sells epoch = (true, []) ∧
    (rebalance false healthy strat mR o f s l sfe bfe buys sells epoch).1 = false := by
  exact ⟨rfl, rfl⟩

/-! ### C6 -/

/-- C6 (amended): every `rebalance` invocation that acquires the running
flag and passes the bot-health check publishes an epoch report for that
epoch, even on failure: on a placement-computation failure the report is
still published with the error recorded as a pre-order problem and with no
placements attempted, and on success the report carries both submitted
sides; on the unhealthy-bot path, however, the code cancels existing orders
and returns without publishing a report. -/
theorem rebalance_reports (strat : GapStrategy) (mR : ℚ → Nat)
    (o f s l : Nat) (sfe bfe : Option Nat) (buys sells : List OrderPlacement)
    (epoch : Nat) :
    (∀ e, ordersToPlace strat mR o f s l sfe bfe buys sells = .error e →
      rebalance false true strat mR o f s l sfe bfe buys sells epoch =
        (false, [REvent.checkHealth, REvent.planOrders, REvent.cancelOrders,
          REvent.publishReport
            { buysReport := none, sellsReport := none,
              epochNum := epoch, preOrderProblem := some e }])) ∧
    (∀ bo so, ordersToPlace strat mR o f s l sfe bfe buys sells = .ok (bo, so) →
      rebalance false true strat mR o f s l sfe bfe buys sells epoch =
        (false, [REvent.checkHealth, REvent.planOrders,
          REvent.submitTrades false bo, REvent.submitTrades true so,
          REvent.publishReport
            { buysReport := some bo, sellsReport := some so,
              epochNum := epoch, preOrderProblem := none }])) ∧
    (rebalance false false strat mR o f s l sfe bfe buys sells epoch =
      (false, [REvent.checkHealth, REvent.cancelOrders])) := by
  refine ⟨?_, ?_, rfl⟩
  · intro e he
    simp [rebalance, he]
  · intro bo so hok
    simp [rebalance, hok]

/-- Witness for C6's amended theorem: with no oracle and no fiat rate the
planner fails with `NoBasisPrice`, and the published report records it as a
pre-order problem with no placements attempted. -/
theorem rebalance_reports_witness :
    rebalance false true .percent (fun _ => 0) 0 0 1 1 none none [] [] 7 =
      (false, [REvent.checkHealth, REvent.planOrders, REvent.cancelOrders,
        REvent.publishReport
          { buysReport := none, sellsReport := none,
            epochNum := 7, preOrderProblem := some .noBasisPrice }]) :=
  (rebalance_reports .percent (fun _ => 0) 0 0 1 1 none none [] [] 7).1
    .noBasisPrice (by decide)

/-- Counterexample for C6 as stated: an invocation that acquires the flag
but fails the health check cancels orders and returns with no epoch-report
publication — the unhealthy path does not produce a report. -/
theorem rebalance_unhealthy_noReport_counterexample :
    (rebalance false false .percent (fun _ => 0) 100 0 1 1 (some 1) (some 1) [] [] 7).2 =
      [REvent.checkHealth, REvent.cancelOrders] ∧
    publishesReport (rebalance false false .percent (fun _ => 0)
      100 0 1 1 (some 1) (some 1) [] [] 7).2 = false := by
  decide

/-! ### C9 -/

/-- C9: `dexAccount.sign` fails with the "account locked" error exactly
when no private key is resident (`privKey = none`, whether never generated,
view-only, or cleared by `lock`), and otherwise returns the detached
signature over the message; it never succeeds without a resident private
key. -/
theorem dexAccount_sign_correct {K : Type} (signMsg : K → List Nat → List Nat)
    (a : DexAccount K) (msg : List Nat) :
    (DexAccount.sign signMsg a msg = .error "account locked" ↔ a.privKey = none) ∧
    (∀ k, a.privKey = some k → DexAccount.sign signMsg a msg = .ok (signMsg k msg)) ∧
    (DexAccount.sign signMsg a.lock msg = .error "account locked") ∧
    (∀ sig, DexAccount.sign signMsg a msg = .ok sig →
      ∃ k, a.privKey = some k ∧ sig = signMsg k msg) := by
  refine ⟨?_, ?_, ?_, ?_⟩
  · cases h : a.privKey <;> simp [DexAccount.sign, h]
  · intro k h
    simp [DexAccount.sign, h]
  · simp [DexAccount.sign, DexAccount.lock]
  · intro sig h
    cases hk : a.privKey with
    | none => simp [DexAccount.sign, hk] at h
    | some k =>
      simp [DexAccount.sign, hk] at h
      exact ⟨k, rfl, h.symm⟩

/-- Witness for C9: a resident key `5` signs `[2, 3]` with a concrete
signing primitive. -/
theorem dexAccount_sign_correct_witness :
    DexAccount.sign (fun (k : Nat) m => k :: m)
      { viewOnly := false, encKey := [1], privKey := some 5 } [2, 3] = .ok [5, 2, 3] :=
  (dexAccount_sign_correct (fun (k : Nat) m => k :: m)
    { viewOnly := false, encKey := [1], privKey := some 5 } [2, 3]).2.1 5 rfl

/-! ### C8 and C10: updateLotSize lemmas -/

lemma totalQty_nil (c : Nat) : totalQty c [] = 0 := rfl

lemma totalQty_foldl (c : Nat) :
    ∀ (ps : List OrderPlacement) (i : Nat),
      List.foldl (fun acc p => acc + p.lots * c) i ps = i + totalQty c ps
  | [], i => by simp [totalQty]
  | p :: ps, i => by
    simp only [totalQty, List.foldl]
    rw [totalQty_foldl c ps (i + p.lots * c), totalQty_foldl c ps (0 + p.lots * c)]
    omega

lemma totalQty_cons (c : Nat) (p : OrderPlacement) (ps : List OrderPlacement) :
    totalQty c (p :: ps) = p.lots * c + totalQty c ps := by
  show List.foldl (fun acc q => acc + q.lots * c) 0 (p :: ps) = _
  simp only [List.foldl]
  rw [totalQty_foldl c ps (0 + p.lots * c)]
  omega

lemma updateLotSizeLoop_cons (o n : Nat) (p : OrderPlacement)
    (ps : List OrderPlacement) (qty : Nat) :
    updateLotSizeLoop o n (p :: ps) qty =
      (if min (max (roundDiv (p.lots * o) n) 1) (qty / n) = 0
       then updateLotSizeLoop o n ps qty
       else { lots := min (max (roundDiv (p.lots * o) n) 1) (qty / n),
              gapFactor := p.gapFactor } ::
         updateLotSizeLoop o n ps
           (qty - min (max (roundDiv (p.lots * o) n) 1) (qty / n) * n)) := rfl

lemma updateLotSizeLoop_total_le (o n : Nat) (ps : List OrderPlacement) :
    ∀ qty, totalQty n (updateLotSizeLoop o n ps qty) ≤ qty := by
  induction ps with
  | nil =>
    intro qty
    simp [updateLotSizeLoop, totalQty]
  | cons p ps ih =>
    intro qty
    rw [updateLotSizeLoop_cons]
    set L := min (max (roundDiv (p.lots * o) n) 1) (qty / n) with hL
    have hle : L * n ≤ qty := by
      calc L * n ≤ (qty / n) * n := Nat.mul_le_mul_right n (Nat.min_le_right _ _)
        _ ≤ qty := Nat.div_mul_le_self qty n
    by_cases h0 : L = 0
    · rw [if_pos h0]
      exact ih qty
    · rw [if_neg h0, totalQty_cons]
      have hproj : ({ lots := L, gapFactor := p.gapFactor } : OrderPlacement).lots = L := rfl
      rw [hproj]
      have := ih (qty - L * n)
      omega

lemma updateLotSizeLoop_mem_pos (o n : Nat) (ps : List OrderPlacement) :
    ∀ qty q, q ∈ updateLotSizeLoop o n ps qty → 1 ≤ q.lots := by
  induction ps with
  | nil =>
    intro qty q h
    simp [updateLotSizeLoop] at h
  | cons p ps ih =>
    intro qty q h
    rw [updateLotSizeLoop_cons] at h
    set L := min (max (roundDiv (p.lots * o) n) 1) (qty / n) with hL
    by_cases h0 : L = 0
    · rw [if_pos h0] at h
      exact ih qty q h
    · rw [if_neg h0] at h
      rcases List.mem_cons.mp h with he | hm
      · rw [he]
        simpa using Nat.one_le_iff_ne_zero.mpr h0
      · exact ih _ q hm

lemma updateLotSizeLoop_gapFactors_sublist (o n : Nat) (ps : List OrderPlacement) :
    ∀ qty, List.Sublist ((updateLotSizeLoop o n ps qty).map OrderPlacement.gapFactor)
      (ps.map OrderPlacement.gapFactor) := by
  induction ps with
  | nil =>
    intro qty
    simp [updateLotSizeLoop]
  | cons p ps ih =>
    intro qty
    rw [updateLotSizeLoop_cons]
    by_cases h0 : min (max (roundDiv (p.lots * o) n) 1) (qty / n) = 0
    · rw [if_pos h0]
      exact List.Sublist.cons _ (ih qty)
    · rw [if_neg h0]
      simp only [List.map_cons]
      exact List.Sublist.cons₂ _ (ih _)

/-! ### C8 -/

/-- C8 (amended): for every placement list and nonzero lot sizes,
`updateLotSize` returns placements whose total quantity
(`lots × newLotSize`, summed) never exceeds the original total quantity
(`lots × originalLotSize`, summed), and every output rung carries at least
one lot: a rung whose lot count rounds to zero is bumped to one lot when
the remaining quantity budget covers it, and a rung is dropped exactly when
the remaining budget at its turn is smaller than one new lot. -/
theorem updateLotSize_correct (ps : List OrderPlacement) (o n : Nat)
    (_ho : 0 < o) (hn : 0 < n) :
    (totalQty n (updateLotSize ps o n) ≤ totalQty o ps) ∧
    (∀ q ∈ updateLotSize ps o n, 1 ≤ q.lots) ∧
    (∀ (p : OrderPlacement) (rest : List OrderPlacement) (qty : Nat), qty < n →
      updateLotSizeLoop o n (p :: rest) qty = updateLotSizeLoop o n rest qty) ∧
    (∀ (p : OrderPlacement) (rest : List OrderPlacement) (qty : Nat), n ≤ qty →
      ∃ L, 1 ≤ L ∧ L * n ≤ qty ∧
        updateLotSizeLoop o n (p :: rest) qty =
          { lots := L, gapFactor := p.gapFactor } ::
            updateLotSizeLoop o n rest (qty - L * n)) := by
  refine ⟨?_, ?_, ?_, ?_⟩
  · exact updateLotSizeLoop_total_le o n ps (totalQty o ps)
  · intro q hq
    exact updateLotSizeLoop_mem_pos o n ps (totalQty o ps) q hq
  · intro p rest qty hlt
    have hdiv : qty / n = 0 := Nat.div_eq_of_lt hlt
    rw [updateLotSizeLoop_cons, hdiv]
    simp
  · intro p rest qty hge
    have hdiv : 1 ≤ qty / n := (Nat.one_le_div_iff hn).mpr hge
    set L := min (max (roundDiv (p.lots * o) n) 1) (qty / n) with hL
    have hL1 : 1 ≤ L := le_min (le_max_right _ _) hdiv
    have hLn : L * n ≤ qty := by
      calc L * n ≤ (qty / n) * n := Nat.mul_le_mul_right n (Nat.min_le_right _ _)
        _ ≤ qty := Nat.div_mul_le_self qty n
    refine ⟨L, hL1, hLn, ?_⟩
    rw [updateLotSizeLoop_cons, if_neg (by omega)]

/-- Witness for C8's amended theorem: one rung of 2 lots rescaled from lot
size 10 to lot size 20, and a drop when the budget (7) is below one new
lot (20). -/
theorem updateLotSize_correct_witness :
    totalQty 20 (updateLotSize [{ lots := 2, gapFactor := 1/2 }] 10 20) ≤
      totalQty 10 [{ lots := 2, gapFactor := 1/2 }] ∧
    updateLotSizeLoop 10 20 [{ lots := 5, gapFactor := 3 }] 7 =
      updateLotSizeLoop 10 20 [] 7 := by
  have h := updateLotSize_correct [{ lots := 2, gapFactor := 1/2 }] 10 20
    (by decide) (by decide)
  exact ⟨h.1, h.2.2.1 { lots := 5, gapFactor := 3 } [] 7 (by decide)⟩

/-- Counterexample for C8 as stated: rescaling `[{1 lot}, {10 lots}]` from
lot size 10 to lot size 30, the first rung's lot count rounds to zero
(`round(10/30) = 0`) yet it is not dropped — it survives with 1 lot, and
the output keeps both rungs. -/
theorem updateLotSize_zeroRung_counterexample :
    roundDiv (1 * 10) 30 = 0 ∧
    (updateLotSize [{ lots := 1, gapFactor := 1/2 }, { lots := 10, gapFactor := 1/4 }]
      10 30).length = 2 ∧
    (updateLotSize [{ lots := 1, gapFactor := 1/2 }, { lots := 10, gapFactor := 1/4 }]
      10 30).map OrderPlacement.lots = [1, 2] := by
  decide

/-! ### C10 -/

/-- C10: `updateLotSize` changes only lot counts and list membership — every
output rung keeps the gap factor of the input rung it was derived from, the
surviving rungs appear in the input's relative order (the output gap-factor
list is a sublist of the input's), and the output is never longer than the
input. -/
theorem updateLotSize_frame (ps : List OrderPlacement) (o n : Nat) :
    List.Sublist ((updateLotSize ps o n).map OrderPlacement.gapFactor)
      (ps.map OrderPlacement.gapFactor) ∧
    (updateLotSize ps o n).length ≤ ps.length := by
  have hs := updateLotSizeLoop_gapFactors_sublist o n ps (totalQty o ps)
  refine ⟨hs, ?_⟩
  have hlen := hs.length_le
  simpa using hlen

end Dcrdex
